import Mathlib

/-!
Verification development for the barber-queue-system repository.

The queue engine lives in src/backend/controllers/queueController.js and
src/backend/models/Customer.js; the discovery pipeline lives in
src/backend/controllers/barberController.js with the Barber model in the
source file defining barberSchema (getDistance, findNearby).

The MongoDB customer collection is modelled as a list of documents.
Mongoose specifics are embedded as follows:
* `findOneAndUpdate(filter, update)` updates the first matching document
  in place (`updateFirstBy`), or appends a fresh document on upsert;
* `doc.save()` after mutating a fetched document writes the whole document
  back over the first document with the same `_id`;
* `find(...).sort({queuePosition: 1})` is a stable sort on the stored
  `queuePosition` (ties keep collection order);
* `getNextTokenNumber` mirrors `findOne({shopId}).sort({tokenNumber:-1})`
  followed by JavaScript `tokenNumber + 1`, where a document whose
  `tokenNumber` is `null` yields `null + 1 = 1`; this is `Option.getD 0`
  followed by `+ 1`.
Profile-only fields (name, phone, password, timestamps, location cache)
are never read by the queue logic and are omitted from the document.
-/

deriving instance DecidableEq for Except

namespace BarberQueue

/-- Status enumeration of a queue entry, from the customerSchema `status`
field: waiting, in-service, completed, cancelled. -/
inductive Status where
  | waiting
  | inService
  | completed
  | cancelled
deriving DecidableEq, Repr

/-- A customer document of the Customer collection (queue-relevant fields of
customerSchema in src/backend/models/Customer.js). `id` stands for the
Mongo `_id`, `tokenNumber` is nullable (`null` modelled as `none`). -/
structure Customer where
  id : Nat
  email : String
  serviceType : String
  shopId : String
  tokenNumber : Option Nat
  queuePosition : Nat
  estimatedWaitTime : Nat
  status : Status
deriving DecidableEq, Repr

/-- The customer collection: a list of documents. -/
abbrev DB := List Customer

/-- Errors surfaced by the queue controllers (HTTP 400/403/404 responses). -/
inductive QueueError where
  | missingServiceType
  | notFound
  | forbidden
  | notWaiting
deriving DecidableEq, Repr

/-- Payload of a successful joinQueue response
(tokenNumber, queuePosition, estimatedWaitTime, customerId). -/
structure JoinData where
  tokenNumber : Nat
  queuePosition : Nat
  estimatedWaitTime : Nat
  customerId : Nat
deriving DecidableEq, Repr

/-- Replace the first document matching `p` by its image under `f`
(mongoose `findOneAndUpdate` / `save()` write-back). -/
def updateFirstBy (p : Customer → Bool) (f : Customer → Customer) : DB → DB
  | [] => []
  | c :: rest => if p c then f c :: rest else c :: updateFirstBy p f rest

/-- Largest numeric tokenNumber stored for the shop (0 when none), the value
found by `findOne({shopId}).sort({tokenNumber:-1})` with null read as 0. -/
def maxTokenForShop (db : DB) (shopId : String) : Nat :=
  db.foldr (fun c m => if c.shopId = shopId then max (c.tokenNumber.getD 0) m else m) 0

/-- Customer.getNextTokenNumber (Customer.js): max stored token + 1, and 1
when the shop has no document or only null tokens (JS `null + 1 = 1`). -/
def getNextTokenNumber (db : DB) (shopId : String) : Nat :=
  maxTokenForShop db shopId + 1

/-- A document counts toward shop occupancy when its status is waiting or
in-service (`status: { $in: ['waiting', 'in-service'] }`). -/
def Customer.isActive (c : Customer) : Bool :=
  match c.status with
  | .waiting => true
  | .inService => true
  | _ => false

/-- countDocuments({shopId, status: {$in: ['waiting','in-service']}}). -/
def countActive (db : DB) (shopId : String) : Nat :=
  (db.filter fun c => c.shopId == shopId && c.isActive).length

/-- A document is a waiting member of the given shop's queue. -/
def Customer.isWaiting (c : Customer) : Bool :=
  match c.status with
  | .waiting => true
  | _ => false

/-- The waiting documents of a shop in collection order
(find({shopId, status: 'waiting'})). -/
def filterWaiting (db : DB) (shopId : String) : List Customer :=
  db.filter fun c => c.shopId == shopId && c.isWaiting

/-- Insert keeping the list sorted by `key`.  The inserted element precedes
existing elements of equal key; since `sortKeyed` inserts earlier list
elements into the sorted tail of later ones, ties keep input order (a
stable sort). -/
def insertKeyed {β : Type} [LinearOrder β] (key : Customer → β) (c : Customer) :
    List Customer → List Customer
  | [] => [c]
  | x :: xs => if key c ≤ key x then c :: x :: xs else x :: insertKeyed key c xs

/-- Stable sort by `key` (models a MongoDB single-key `.sort`). -/
def sortKeyed {β : Type} [LinearOrder β] (key : Customer → β) :
    List Customer → List Customer
  | [] => []
  | c :: rest => insertKeyed key c (sortKeyed key rest)

/-- Sort by stored queuePosition ascending (`.sort({ queuePosition: 1 })`). -/
def sortByPos : List Customer → List Customer :=
  sortKeyed (fun c => c.queuePosition)

/-- Write position `p` and the derived wait `p * 20` into a document (the
loop body of updateQueuePositions with the hard-coded 20 min average). -/
def setPos (c : Customer) (p : Nat) : Customer :=
  { c with queuePosition := p, estimatedWaitTime := p * 20 }

/-- The save loop of updateQueuePositions: the i-th fetched waiting document
gets queuePosition i+1 and estimatedWaitTime (i+1)*20, written back by id. -/
def saveAll (i : Nat) : List Customer → DB → DB
  | [], db => db
  | w :: rest, db =>
      saveAll (i + 1) rest
        (updateFirstBy (fun x => x.id == w.id) (fun _ => setPos w (i + 1)) db)

/-- updateQueuePositions (queueController.js, lines 450-461): fetch the
shop's waiting documents sorted by stored queuePosition, then reassign
positions 1..N in that order. -/
def updateQueuePositions (db : DB) (shopId : String) : DB :=
  saveAll 0 (sortByPos (filterWaiting db shopId)) db

/-- Fresh Mongo id for an upserted document. -/
def freshId (db : DB) : Nat :=
  db.foldr (fun c m => max c.id m) 0 + 1

/-- joinQueue (queueController.js, lines 13-87): validate serviceType, read
the next token and the current occupancy count, then upsert by email -
overwriting the customer's single document when one exists, else inserting
a fresh one.  Responds with tokenNumber, queuePosition, estimatedWaitTime
(stale for an overwritten document, 0 for a fresh one, since
findOneAndUpdate does not run the pre-save hook) and the document id. -/
def joinQueue (db : DB) (email serviceType shopId : String) :
    DB × Except QueueError JoinData :=
  if serviceType = "" then (db, .error .missingServiceType)
  else
    let tokenNumber := getNextTokenNumber db shopId
    let queueCount := countActive db shopId
    match db.find? (fun c => c.email == email) with
    | some c =>
        (updateFirstBy (fun x => x.email == email)
          (fun x => { x with
              serviceType := serviceType
              shopId := shopId
              tokenNumber := some tokenNumber
              queuePosition := queueCount + 1
              status := .waiting }) db,
         .ok ⟨tokenNumber, queueCount + 1, c.estimatedWaitTime, c.id⟩)
    | none =>
        let cNew : Customer :=
          ⟨freshId db, email, serviceType, shopId, some tokenNumber,
           queueCount + 1, 0, .waiting⟩
        (db ++ [cNew], .ok ⟨tokenNumber, queueCount + 1, 0, cNew.id⟩)

/-- cancelQueue (queueController.js, lines 94-180): find the entry, check
ownership (403) and waiting status (400), then mark it cancelled with
tokenNumber null, queuePosition 0 and shopId reset to 'main-shop', and
recompute the original shop's positions. -/
def cancelQueue (db : DB) (entryId : Nat) (requesterEmail : String) :
    DB × Except QueueError Unit :=
  match db.find? (fun c => c.id == entryId) with
  | none => (db, .error .notFound)
  | some c =>
      if c.email ≠ requesterEmail then (db, .error .forbidden)
      else if c.status ≠ .waiting then (db, .error .notWaiting)
      else
        let shopId := c.shopId
        let db1 := updateFirstBy (fun x => x.id == entryId)
          (fun _ => { c with
              status := .cancelled
              tokenNumber := none
              queuePosition := 0
              shopId := "main-shop" }) db
        (updateQueuePositions db1 shopId, .ok ())

/-- serveCustomer (queueController.js, lines 313-357): find the entry,
require waiting status, set it to in-service. -/
def serveCustomer (db : DB) (entryId : Nat) : DB × Except QueueError Customer :=
  match db.find? (fun c => c.id == entryId) with
  | none => (db, .error .notFound)
  | some c =>
      if c.status ≠ .waiting then (db, .error .notWaiting)
      else
        let c2 := { c with status := Status.inService }
        (updateFirstBy (fun x => x.id == entryId) (fun _ => c2) db, .ok c2)

/-- completeService (queueController.js, lines 364-404): find the entry and
mark it completed - the controller performs no status check before calling
the model's completeService() - then recompute the shop's positions. -/
def completeService (db : DB) (entryId : Nat) : DB × Except QueueError Customer :=
  match db.find? (fun c => c.id == entryId) with
  | none => (db, .error .notFound)
  | some c =>
      let c2 := { c with status := Status.completed }
      let db1 := updateFirstBy (fun x => x.id == entryId) (fun _ => c2) db
      (updateQueuePositions db1 c.shopId, .ok c2)

/-- Lookup of a document by id (Customer.findById). -/
def findDoc (db : DB) (entryId : Nat) : Option Customer :=
  db.find? (fun c => c.id == entryId)

/-- The document that the save loop of updateQueuePositions leaves for `x`
when the fetched waiting list is scanned from logical index `i`: the first
fetched document with the same id determines the written-back record, and
a document matching none of them is untouched.  Used to restate `saveAll`
as a single pass over the collection. -/
def lookupAssignFrom (i : Nat) (x : Customer) : List Customer → Customer
  | [] => x
  | w :: rest => if w.id == x.id then setPos w (i + 1) else lookupAssignFrom (i + 1) x rest

/-- The fetched waiting list with positions i+1, i+2, ... assigned in
order - the intended output of the updateQueuePositions loop. -/
def ranked (i : Nat) : List Customer → List Customer
  | [] => []
  | w :: rest => setPos w (i + 1) :: ranked (i + 1) rest

/-- Strict comparison of stored queue positions. -/
def posLt (a b : Customer) : Prop :=
  a.queuePosition < b.queuePosition

instance : IsAntisymm Customer posLt :=
  ⟨fun _ _ h h2 => absurd (h.trans h2) (lt_irrefl _)⟩

/-!
Concrete runs of the operations, used by the counterexamples and
witnesses below.
-/

/-- One customer has joined shop "s": a single waiting document with id 1
and token 1. -/
def joined1 : DB := (joinQueue [] "e1" "haircut" "s").1

/-- The same customer has cancelled: their document is cancelled, with
token cleared and shop reset to "main-shop". -/
def cancelled1 : DB := (cancelQueue joined1 1 "e1").1

/-- Customer e1 joined shop "s" and is now in service. -/
def served1 : DB := (serveCustomer joined1 1).1

/-- State built by joins only: e1..e4 join shop "S" (tokens 1..4), then
e1, e2, e3 each rejoin at shop "T" - the upsert moves their documents to
"T" with no recompute at "S" - then new customers e5 and e6 join "S"
(tokens 5 and 6); "S" now holds tokens 4, 5, 6 at stored positions
4, 2, 3. -/
def crossJoined : DB :=
  (joinQueue ((joinQueue ((joinQueue ((joinQueue ((joinQueue ((joinQueue
    ((joinQueue ((joinQueue ((joinQueue ([] : DB)
      "e1" "haircut" "S").1) "e2" "haircut" "S").1) "e3" "haircut" "S").1)
      "e4" "haircut" "S").1) "e1" "haircut" "T").1) "e2" "haircut" "T").1)
      "e3" "haircut" "T").1) "e5" "haircut" "S").1) "e6" "haircut" "S").1

/-- crossJoined after customer e6 cancels: the Cancel triggers the position
recompute for shop "S". -/
def crossCancelled : DB := (cancelQueue crossJoined 6 "e6").1

end BarberQueue

namespace Discovery

/-!
Discovery pipeline of getNearbyBarbers in src/unnamed/part_008 - the
handler that barberShopRoutes.js wires to GET /api/barbers/nearby (the
near-duplicate in barberController.js is not mounted on this endpoint) -
together with the shop models' getDistance.  Numbers are rationals (the
JS engine uses binary floating point; the branching and ordering logic
under scrutiny is unaffected by the representation).  The trigonometric
core of the Haversine formula (`R * c` computed with Math.sin/cos/atan2)
is kept abstract as a function argument `hav lat1 lon1 lat2 lon2`, since
transcendental floating-point values have no place in the shallow
embedding; everything the code does downstream of that value - the
final rounding in getDistance, the enrichment, the formatting and the
sort - is embedded concretely.  The MongoDB `$near` geospatial queries
are store-side behaviour; the merged candidate list they return is an
input. -/

/-- A shop document (fields of the Barber/BarberShop schemas that the
discovery pipeline reads).  `lon`/`lat` are location.coordinates[0]/[1];
display-only fields (rating, address, parking, hours) are omitted.
`averageWaitTime` is the schema's stored average service time - the
routed enrichment never reads it (it hardcodes 15 minutes). -/
structure Barber where
  shopId : String
  shopName : String
  lon : ℚ
  lat : ℚ
  averageWaitTime : Nat
  isOpen : Bool
deriving DecidableEq, Repr

/-- Round to one decimal place: Math.round(distance * 10) / 10
(the last line of getDistance in both shop models). -/
def roundTenth (x : ℚ) : ℚ :=
  (round (x * 10) : ℤ) / 10

/-- barber.getDistance(longitude, latitude): the Haversine great-circle
distance in kilometers, returned already rounded to one decimal place. -/
def getDistance (hav : ℚ → ℚ → ℚ → ℚ → ℚ) (b : Barber)
    (longitude latitude : ℚ) : ℚ :=
  roundTenth (hav b.lat b.lon latitude longitude)

/-- Wait-time formatting (src/unnamed/part_008, lines 99-108): 'No wait'
for 0; 'X min' below 60; otherwise 'X hr' or 'X hr Y min'. -/
def waitTimeText (est : Nat) : String :=
  if est = 0 then "No wait"
  else if est < 60 then s!"{est} min"
  else
    let hours := est / 60
    let mins := est % 60
    if mins > 0 then s!"{hours} hr {mins} min" else s!"{hours} hr"

/-- An enriched discovery result (the fields of the response object built
on lines 131-157 of src/unnamed/part_008 that the verified properties
mention). -/
structure Enriched where
  shopId : String
  shopName : String
  distance : ℚ
  queueLength : Nat
  estimatedWaitTime : Nat
  waitTimeText : String
  isOpen : Bool
deriving DecidableEq, Repr

/-- Enrichment of one candidate (src/unnamed/part_008, lines 83-158):
distance via getDistance, queue length via countDocuments on the customer
collection, estimated wait = queueLength * 15 - the 15-minute average per
customer is hard-coded on line 97, the shop's stored averageWaitTime is
ignored - and the formatted wait text. -/
def enrichBarber (hav : ℚ → ℚ → ℚ → ℚ → ℚ) (customerDb : BarberQueue.DB)
    (userLon userLat : ℚ) (b : Barber) : Enriched :=
  let distance := getDistance hav b userLon userLat
  let queueLength := BarberQueue.countActive customerDb b.shopId
  let est := queueLength * 15
  { shopId := b.shopId
    shopName := b.shopName
    distance := distance
    queueLength := queueLength
    estimatedWaitTime := est
    waitTimeText := waitTimeText est
    isOpen := b.isOpen }

/-- Stable insertion keeping the list sorted by distance: the inserted
element precedes existing elements of equal distance, so that the foldr
sort below keeps input order on ties. -/
def insertByDist (e : Enriched) : List Enriched → List Enriched
  | [] => [e]
  | x :: xs => if e.distance ≤ x.distance then e :: x :: xs else x :: insertByDist e xs

/-- enrichedBarbers.sort((a, b) => a.distance - b.distance) on line 162 of
src/unnamed/part_008: JavaScript Array.prototype.sort is stable, so ties
keep input order. -/
def sortByDistance : List Enriched → List Enriched
  | [] => []
  | e :: rest => insertByDist e (sortByDistance rest)

/-- Validation failures of getNearbyBarbers (the two HTTP 400 responses of
src/unnamed/part_008, lines 25-38). -/
inductive DiscoveryError where
  | missingCoordinates
  | invalidCoordinates
deriving DecidableEq, Repr

/-- getNearbyBarbers (src/unnamed/part_008, lines 16-185), the handler
routed to GET /api/barbers/nearby.  The first check,
`!userLat || !userLon || isNaN(...)`, is JavaScript truthiness: it fires
on missing parameters and also on a latitude or longitude equal to 0.
Then the coordinate ranges are checked.  The radius is never validated:
line 41 only computes `maxDistance = radius ? parseInt(radius) : 5000`
(absent radius modelled as `none`) and forwards it to the store-side
$near queries, whose merged result `candidates` is an input here and is
only used after the two origin checks pass. -/
def getNearbyBarbers (hav : ℚ → ℚ → ℚ → ℚ → ℚ) (userLat userLon : ℚ)
    (radius : Option Int) (candidates : List Barber)
    (customerDb : BarberQueue.DB) : Except DiscoveryError (List Enriched) :=
  if userLat = 0 ∨ userLon = 0 then .error .missingCoordinates
  else if userLat < -90 ∨ userLat > 90 ∨ userLon < -180 ∨ userLon > 180 then
    .error .invalidCoordinates
  else .ok (sortByDistance (candidates.map (enrichBarber hav customerDb userLon userLat)))

/-!
Concrete sample data for counterexamples and witnesses.
-/

/-- A sample Haversine core: any fixed function of the two coordinate
pairs will do for the concrete scenarios (two shops at identical
coordinates receive identical values under every such function). -/
def havConst : ℚ → ℚ → ℚ → ℚ → ℚ := fun _ _ _ _ => 1

/-- Shop with identifier "a", at the same coordinates as shopB. -/
def shopA : Barber := ⟨"a", "Alpha", 72, 21, 15, true⟩

/-- Shop with identifier "b", at the same coordinates as shopA. -/
def shopB : Barber := ⟨"b", "Beta", 72, 21, 15, true⟩

/-- Shop whose stored average service time is 20 minutes (the routed
enrichment ignores the stored average). -/
def shopAvg20 : Barber := ⟨"s", "Sigma", 72, 21, 20, true⟩

/-- Shop whose stored average service time is 15 minutes. -/
def shopAvg15 : Barber := ⟨"t", "Tau", 72, 21, 15, true⟩

/-- Customer collection with three active documents (two waiting, one
in-service) at shop "s", so queueLength = 3 there. -/
def queue3 : BarberQueue.DB :=
  [⟨1, "a", "haircut", "s", some 1, 1, 0, .waiting⟩,
   ⟨2, "b", "haircut", "s", some 2, 2, 0, .waiting⟩,
   ⟨3, "c", "haircut", "s", some 3, 3, 0, .inService⟩]

/-- Customer collection with five waiting documents at shop "t", so
queueLength = 5 there. -/
def queue5 : BarberQueue.DB :=
  [⟨1, "a", "haircut", "t", some 1, 1, 0, .waiting⟩,
   ⟨2, "b", "haircut", "t", some 2, 2, 0, .waiting⟩,
   ⟨3, "c", "haircut", "t", some 3, 3, 0, .waiting⟩,
   ⟨4, "d", "haircut", "t", some 4, 4, 0, .waiting⟩,
   ⟨5, "e", "haircut", "t", some 5, 5, 0, .waiting⟩]

end Discovery

namespace BarberQueue

/-!
Supporting lemmas about the list-level building blocks.
-/

lemma updateFirstBy_length (p : Customer → Bool) (f : Customer → Customer) :
    ∀ db : DB, (updateFirstBy p f db).length = db.length := by
  intro db
  induction db with
  | nil => rfl
  | cons a rest ih =>
      by_cases hp : p a
      · simp [updateFirstBy, hp]
      · simp [updateFirstBy, hp, ih]

/-- A successful find? splits the collection into a prefix with no match,
the found document, and a suffix; updateFirstBy rewrites exactly the found
document. -/
lemma find?_decomp (p : Customer → Bool) :
    ∀ (db : DB) (c : Customer), db.find? p = some c →
      ∃ l1 l2 : DB, db = l1 ++ c :: l2 ∧ (∀ y ∈ l1, p y = false) ∧
        ∀ f, updateFirstBy p f db = l1 ++ f c :: l2 := by
  intro db
  induction db with
  | nil => intro c h; simp [List.find?] at h
  | cons a rest ih =>
      intro c h
      by_cases hp : p a
      · rw [List.find?_cons_of_pos rest hp] at h
        injection h with h
        subst h
        exact ⟨[], rest, by simp, by simp, fun f => by simp [updateFirstBy, hp]⟩
      · rw [List.find?_cons_of_neg rest hp] at h
        obtain ⟨l1, l2, hsplit, hnone, hupd⟩ := ih c h
        refine ⟨a :: l1, l2, by simp [hsplit], ?_, fun f => ?_⟩
        · intro y hy
          rcases List.mem_cons.1 hy with rfl | hy
          · exact Bool.eq_false_iff.2 hp
          · exact hnone y hy
        · simp [updateFirstBy, hp, hupd f]

/-- When a key occurs at most once, find? by that key returns the member
itself. -/
lemma find?_key_of_mem {β : Type} [BEq β] [LawfulBEq β] (key : Customer → β) :
    ∀ (db : DB) (x : Customer), x ∈ db → ((db.map key).Nodup) →
      db.find? (fun y => key y == key x) = some x := by
  intro db
  induction db with
  | nil => intro x hx; simp at hx
  | cons a rest ih =>
      intro x hx hnd
      rw [List.map_cons, List.nodup_cons] at hnd
      rcases List.mem_cons.1 hx with rfl | hx
      · exact List.find?_cons_of_pos rest (by simp)
      · have hne : ¬ (key a == key x) = true := by
          simp only [beq_iff_eq]
          intro he
          exact hnd.1 (he ▸ List.mem_map_of_mem key hx)
        rw [List.find?_cons_of_neg rest hne]
        exact ih x hx hnd.2

/-- Two members with the same key are equal when the mapped keys have no
duplicate. -/
lemma mem_eq_of_key {β : Type} (key : Customer → β) (db : DB)
    (hnd : (db.map key).Nodup) {x y : Customer} (hx : x ∈ db) (hy : y ∈ db)
    (hk : key x = key y) : x = y :=
  List.inj_on_of_nodup_map hnd hx hy hk

lemma insertKeyed_perm {β : Type} [LinearOrder β] (key : Customer → β)
    (c : Customer) : ∀ l : List Customer, (insertKeyed key c l).Perm (c :: l) := by
  intro l
  induction l with
  | nil => simp [insertKeyed]
  | cons x xs ih =>
      by_cases hle : key c ≤ key x
      · simp [insertKeyed, hle]
      · simp only [insertKeyed, if_neg hle]
        exact (ih.cons x).trans (List.Perm.swap c x xs)

lemma sortKeyed_perm {β : Type} [LinearOrder β] (key : Customer → β) :
    ∀ l : List Customer, (sortKeyed key l).Perm l := by
  intro l
  induction l with
  | nil => simp [sortKeyed]
  | cons c rest ih =>
      exact (insertKeyed_perm key c (sortKeyed key rest)).trans (ih.cons c)

lemma insertKeyed_sorted {β : Type} [LinearOrder β] (key : Customer → β)
    (c : Customer) : ∀ l : List Customer,
    l.Pairwise (fun a b => key a ≤ key b) →
    (insertKeyed key c l).Pairwise (fun a b => key a ≤ key b) := by
  intro l
  induction l with
  | nil => intro _; simp [insertKeyed]
  | cons x xs ih =>
      intro hs
      rw [List.pairwise_cons] at hs
      by_cases hle : key c ≤ key x
      · rw [insertKeyed, if_pos hle, List.pairwise_cons]
        refine ⟨?_, List.pairwise_cons.2 hs⟩
        intro y hy
        rcases List.mem_cons.1 hy with rfl | hy
        · exact hle
        · exact hle.trans (hs.1 y hy)
      · rw [insertKeyed, if_neg hle, List.pairwise_cons]
        refine ⟨?_, ih hs.2⟩
        intro y hy
        have hy' := (insertKeyed_perm key c xs).mem_iff.1 hy
        rcases List.mem_cons.1 hy' with rfl | hy'
        · exact le_of_not_le hle
        · exact hs.1 y hy'

lemma sortKeyed_sorted {β : Type} [LinearOrder β] (key : Customer → β) :
    ∀ l : List Customer,
    (sortKeyed key l).Pairwise (fun a b => key a ≤ key b) := by
  intro l
  induction l with
  | nil => simp [sortKeyed]
  | cons c rest ih => exact insertKeyed_sorted key c _ ih

lemma sortByPos_perm (l : List Customer) : (sortByPos l).Perm l :=
  sortKeyed_perm _ l

lemma sortByPos_sorted (l : List Customer) :
    (sortByPos l).Pairwise (fun a b => a.queuePosition ≤ b.queuePosition) :=
  sortKeyed_sorted _ l

@[simp]
lemma setPos_id (c : Customer) (p : Nat) : (setPos c p).id = c.id := rfl

@[simp]
lemma setPos_email (c : Customer) (p : Nat) : (setPos c p).email = c.email := rfl

@[simp]
lemma setPos_shopId (c : Customer) (p : Nat) : (setPos c p).shopId = c.shopId := rfl

@[simp]
lemma setPos_status (c : Customer) (p : Nat) : (setPos c p).status = c.status := rfl

@[simp]
lemma setPos_pos (c : Customer) (p : Nat) : (setPos c p).queuePosition = p := rfl

@[simp]
lemma setPos_setPos (c : Customer) (p : Nat) : setPos (setPos c p) p = setPos c p := rfl

lemma lookupAssignFrom_of_not_mem (x : Customer) :
    ∀ (ws : List Customer) (i : Nat), (∀ w ∈ ws, w.id ≠ x.id) →
      lookupAssignFrom i x ws = x := by
  intro ws
  induction ws with
  | nil => intro i _; rfl
  | cons w rest ih =>
      intro i hne
      rw [lookupAssignFrom, if_neg]
      · exact ih (i + 1) fun y hy => hne y (List.mem_cons_of_mem w hy)
      · simp only [beq_iff_eq]
        exact hne w (List.mem_cons_self w rest)

lemma lookupAssignFrom_get :
    ∀ (ws : List Customer), ((ws.map (·.id)).Nodup) →
      ∀ (i k : Nat) (h : k < ws.length),
        lookupAssignFrom i (ws.get ⟨k, h⟩) ws = setPos (ws.get ⟨k, h⟩) (i + k + 1) := by
  intro ws
  induction ws with
  | nil => intro _ i k h; simp at h
  | cons w rest ih =>
      intro hnd i k h
      rw [List.map_cons, List.nodup_cons] at hnd
      match k with
      | 0 => simp [lookupAssignFrom, List.get]
      | k + 1 =>
          have hget : (w :: rest).get ⟨k + 1, h⟩ = rest.get ⟨k, Nat.lt_of_succ_lt_succ h⟩ := rfl
          rw [hget, lookupAssignFrom, if_neg, ih hnd.2 (i + 1) k (Nat.lt_of_succ_lt_succ h)]
          · congr 1
            omega
          · simp only [beq_iff_eq]
            intro he
            exact hnd.1 (he ▸ List.mem_map_of_mem (·.id) (rest.get_mem k _))

lemma lookupAssignFrom_cases (x : Customer) :
    ∀ (ws : List Customer) (i : Nat),
      lookupAssignFrom i x ws = x ∨
        ∃ w ∈ ws, w.id = x.id ∧ ∃ j, lookupAssignFrom i x ws = setPos w j := by
  intro ws
  induction ws with
  | nil => intro i; left; rfl
  | cons w rest ih =>
      intro i
      by_cases hw : (w.id == x.id) = true
      · right
        exact ⟨w, List.mem_cons_self w rest, by simpa using hw,
          i + 1, by rw [lookupAssignFrom, if_pos hw]⟩
      · rw [lookupAssignFrom, if_neg hw]
        rcases ih (i + 1) with h | ⟨w', hw', hid, j, hj⟩
        · left; exact h
        · right; exact ⟨w', List.mem_cons_of_mem w hw', hid, j, hj⟩

/-- With unique document ids, replacing the first id-match is the same as
mapping the conditional replacement over the whole collection. -/
lemma updateFirstBy_eq_map (n : Nat) (f : Customer → Customer) :
    ∀ db : DB, ((db.map (·.id)).Nodup) →
      updateFirstBy (fun x => x.id == n) f db =
        db.map (fun x => if x.id == n then f x else x) := by
  intro db
  induction db with
  | nil => intro _; rfl
  | cons a rest ih =>
      intro hnd
      rw [List.map_cons, List.nodup_cons] at hnd
      by_cases ha : (a.id == n) = true
      · rw [updateFirstBy, if_pos ha, List.map_cons, if_pos ha]
        congr 1
        have : ∀ x ∈ rest, (if x.id == n then f x else x) = x := by
          intro x hx
          rw [if_neg]
          simp only [beq_iff_eq]
          intro he
          exact hnd.1 (by
            have : x.id = a.id := by rw [he, (beq_iff_eq).1 ha]
            exact this ▸ List.mem_map_of_mem (·.id) hx)
        exact ((List.map_congr_left this).trans rest.map_id).symm
      · rw [updateFirstBy, if_neg ha, List.map_cons, if_neg ha, ih hnd.2]

/-- The save loop of updateQueuePositions, restated as one pass over the
collection: each document receives the record determined by the first
fetched waiting document with its id, when there is one.  Requires unique
ids in the collection and in the fetched list. -/
lemma saveAll_eq_map :
    ∀ (ws : List Customer) (i : Nat) (db : DB),
      ((db.map (·.id)).Nodup) → ((ws.map (·.id)).Nodup) →
      saveAll i ws db = db.map (fun x => lookupAssignFrom i x ws) := by
  intro ws
  induction ws with
  | nil =>
      intro i db _ _
      simp [saveAll, lookupAssignFrom]
  | cons w rest ih =>
      intro i db hdb hws
      rw [List.map_cons, List.nodup_cons] at hws
      rw [saveAll, updateFirstBy_eq_map w.id _ db hdb]
      have hids : ((db.map fun x => if x.id == w.id then setPos w (i + 1) else x).map
          (·.id)) = db.map (·.id) := by
        rw [List.map_map]
        refine List.map_congr_left ?_
        intro x _
        by_cases hx : (x.id == w.id) = true
        · simp [Function.comp, hx, (beq_iff_eq).1 hx]
        · simp [Function.comp, hx]
      rw [ih (i + 1) _ (by rw [hids]; exact hdb) hws.2, List.map_map]
      refine List.map_congr_left ?_
      intro x _
      by_cases hx : (x.id == w.id) = true
      · have hxw : x.id = w.id := (beq_iff_eq).1 hx
        simp only [Function.comp, if_pos hx]
        rw [lookupAssignFrom, if_pos (by simpa using hxw.symm),
          lookupAssignFrom_of_not_mem _ rest (i + 1) ?_]
        intro y hy
        rw [setPos_id]
        intro he
        exact hws.1 (he ▸ List.mem_map_of_mem (·.id) hy)
      · simp only [Function.comp, if_neg hx]
        rw [lookupAssignFrom, if_neg (by
          simp only [beq_iff_eq]
          intro he
          exact hx (by simp [he]))]

lemma ranked_length : ∀ (l : List Customer) (i : Nat), (ranked i l).length = l.length := by
  intro l
  induction l with
  | nil => intro i; rfl
  | cons w rest ih => intro i; simp [ranked, ih]

lemma ranked_map_id : ∀ (l : List Customer) (i : Nat),
    (ranked i l).map (·.id) = l.map (·.id) := by
  intro l
  induction l with
  | nil => intro i; rfl
  | cons w rest ih => intro i; simp [ranked, ih]

lemma ranked_map_pos : ∀ (l : List Customer) (i : Nat),
    (ranked i l).map (·.queuePosition) = List.range' (i + 1) l.length := by
  intro l
  induction l with
  | nil => intro i; rfl
  | cons w rest ih =>
      intro i
      rw [ranked, List.map_cons, setPos_pos, List.length_cons, List.range'_succ, ih]

lemma ranked_get : ∀ (l : List Customer) (i k : Nat) (h : k < l.length),
    (ranked i l).get ⟨k, by rw [ranked_length]; exact h⟩ =
      setPos (l.get ⟨k, h⟩) (i + k + 1) := by
  intro l
  induction l with
  | nil => intro i k h; simp at h
  | cons w rest ih =>
      intro i k h
      match k with
      | 0 => rfl
      | k + 1 =>
          have := ih (i + 1) k (Nat.lt_of_succ_lt_succ h)
          simp only [ranked, List.get] at this ⊢
          rw [this]
          congr 1
          omega

/-- Applying the save-loop record assignment to the fetched list itself
yields the fetched list with positions i+1, i+2, ... -/
lemma map_lookupAssignFrom_self (ws : List Customer)
    (hws : (ws.map (·.id)).Nodup) (i : Nat) :
    ws.map (fun x => lookupAssignFrom i x ws) = ranked i ws := by
  refine List.ext_get (by rw [List.length_map, ranked_length]) ?_
  intro k h1 h2
  rw [List.get_map, lookupAssignFrom_get ws hws i k (by simpa using h1)]
  exact (ranked_get ws i k (by simpa using h1)).symm

/-!
Characterization of updateQueuePositions on collections with unique ids.
-/

lemma filterWaiting_sublist (db : DB) (s : String) :
    List.Sublist (filterWaiting db s) db :=
  List.filter_sublist db

lemma mem_of_mem_filterWaiting {db : DB} {s : String} {c : Customer}
    (h : c ∈ filterWaiting db s) : c ∈ db :=
  (filterWaiting_sublist db s).mem h

lemma sortedWaiting_perm (db : DB) (s : String) :
    (sortByPos (filterWaiting db s)).Perm (filterWaiting db s) :=
  sortByPos_perm _

lemma mem_of_mem_sortedWaiting {db : DB} {s : String} {c : Customer}
    (h : c ∈ sortByPos (filterWaiting db s)) : c ∈ db :=
  mem_of_mem_filterWaiting ((sortedWaiting_perm db s).mem_iff.1 h)

lemma sortedWaiting_ids_nodup (db : DB) (s : String)
    (hdb : (db.map (·.id)).Nodup) :
    ((sortByPos (filterWaiting db s)).map (·.id)).Nodup := by
  have h1 : ((filterWaiting db s).map (·.id)).Nodup :=
    hdb.sublist ((filterWaiting_sublist db s).map (·.id))
  exact (((sortedWaiting_perm db s).map (·.id)).nodup_iff).2 h1

/-- updateQueuePositions as a single pass over the collection. -/
lemma updateQueuePositions_eq_map (db : DB) (s : String)
    (hdb : (db.map (·.id)).Nodup) :
    updateQueuePositions db s =
      db.map (fun x => lookupAssignFrom 0 x (sortByPos (filterWaiting db s))) :=
  saveAll_eq_map _ 0 db hdb (sortedWaiting_ids_nodup db s hdb)

/-- On a member of the collection, the save-loop assignment either leaves
the document alone or only rewrites its position and estimated wait. -/
lemma lookupAssignFrom_mem_shape (db : DB) (s : String)
    (hdb : (db.map (·.id)).Nodup) (x : Customer) (hx : x ∈ db) :
    lookupAssignFrom 0 x (sortByPos (filterWaiting db s)) = x ∨
      ∃ j, lookupAssignFrom 0 x (sortByPos (filterWaiting db s)) = setPos x j := by
  rcases lookupAssignFrom_cases x (sortByPos (filterWaiting db s)) 0 with h | ⟨w, hw, hid, j, hj⟩
  · exact Or.inl h
  · have hwdb : w ∈ db := mem_of_mem_sortedWaiting hw
    have : w = x := mem_eq_of_key (·.id) db hdb hwdb hx hid
    exact Or.inr ⟨j, by rw [hj, this]⟩

lemma lookupAssignFrom_mem_id (db : DB) (s : String)
    (hdb : (db.map (·.id)).Nodup) (x : Customer) (hx : x ∈ db) :
    (lookupAssignFrom 0 x (sortByPos (filterWaiting db s))).id = x.id := by
  rcases lookupAssignFrom_mem_shape db s hdb x hx with h | ⟨j, hj⟩
  · rw [h]
  · rw [hj, setPos_id]

lemma lookupAssignFrom_mem_status (db : DB) (s : String)
    (hdb : (db.map (·.id)).Nodup) (x : Customer) (hx : x ∈ db) :
    (lookupAssignFrom 0 x (sortByPos (filterWaiting db s))).status = x.status := by
  rcases lookupAssignFrom_mem_shape db s hdb x hx with h | ⟨j, hj⟩
  · rw [h]
  · rw [hj, setPos_status]

lemma lookupAssignFrom_mem_shopId (db : DB) (s : String)
    (hdb : (db.map (·.id)).Nodup) (x : Customer) (hx : x ∈ db) :
    (lookupAssignFrom 0 x (sortByPos (filterWaiting db s))).shopId = x.shopId := by
  rcases lookupAssignFrom_mem_shape db s hdb x hx with h | ⟨j, hj⟩
  · rw [h]
  · rw [hj, setPos_shopId]

lemma lookupAssignFrom_mem_email (db : DB) (s : String)
    (hdb : (db.map (·.id)).Nodup) (x : Customer) (hx : x ∈ db) :
    (lookupAssignFrom 0 x (sortByPos (filterWaiting db s))).email = x.email := by
  rcases lookupAssignFrom_mem_shape db s hdb x hx with h | ⟨j, hj⟩
  · rw [h]
  · rw [hj, setPos_email]

/-- The recompute changes no document's id: the mapped id list is
untouched. -/
lemma updateQueuePositions_map_id (db : DB) (s : String)
    (hdb : (db.map (·.id)).Nodup) :
    (updateQueuePositions db s).map (·.id) = db.map (·.id) := by
  rw [updateQueuePositions_eq_map db s hdb, List.map_map]
  exact List.map_congr_left fun x hx =>
    lookupAssignFrom_mem_id db s hdb x hx

/-- The recompute changes no document's email. -/
lemma updateQueuePositions_map_email (db : DB) (s : String)
    (hdb : (db.map (·.id)).Nodup) :
    (updateQueuePositions db s).map (·.email) = db.map (·.email) := by
  rw [updateQueuePositions_eq_map db s hdb, List.map_map]
  exact List.map_congr_left fun x hx =>
    lookupAssignFrom_mem_email db s hdb x hx

/-- A pointwise status- and shop-preserving rewrite of the collection
commutes with fetching a shop's waiting documents. -/
lemma filterWaiting_map (g : Customer → Customer) (db : DB) (t : String)
    (h : ∀ x ∈ db, (g x).status = x.status ∧ (g x).shopId = x.shopId) :
    filterWaiting (db.map g) t = (filterWaiting db t).map g := by
  unfold filterWaiting
  rw [List.filter_map]
  congr 1
  refine List.filter_congr ?_
  intro x hx
  simp only [Function.comp]
  rw [(h x hx).2]
  congr 1
  unfold Customer.isWaiting
  rw [(h x hx).1]

/-- After the recompute, the waiting documents of the shop are the images
of the previously waiting documents, in collection order. -/
lemma filterWaiting_updateQueuePositions (db : DB) (s t : String)
    (hdb : (db.map (·.id)).Nodup) :
    filterWaiting (updateQueuePositions db s) t =
      (filterWaiting db t).map
        (fun x => lookupAssignFrom 0 x (sortByPos (filterWaiting db s))) := by
  rw [updateQueuePositions_eq_map db s hdb]
  exact filterWaiting_map _ db t fun x hx =>
    ⟨lookupAssignFrom_mem_status db s hdb x hx,
     lookupAssignFrom_mem_shopId db s hdb x hx⟩

lemma findDoc_map (g : Customer → Customer) :
    ∀ db : DB, (∀ x ∈ db, (g x).id = x.id) → ∀ n : Nat,
      findDoc (db.map g) n = (findDoc db n).map g := by
  intro db
  induction db with
  | nil => intro _ n; rfl
  | cons a rest ih =>
      intro hpres n
      have hid := hpres a (List.mem_cons_self a rest)
      unfold findDoc
      rw [List.map_cons, List.find?_cons, List.find?_cons, hid]
      cases hb : (a.id == n) with
      | true => rfl
      | false => exact ih (fun x hx => hpres x (List.mem_cons_of_mem a hx)) n

lemma findDoc_of_mem (db : DB) (x : Customer) (hx : x ∈ db)
    (hdb : (db.map (·.id)).Nodup) : findDoc db x.id = some x :=
  find?_key_of_mem (·.id) db x hx hdb

/-- The fetched-and-reranked waiting list of the recomputed collection is
the original fetched list with positions 1..M: the second fetch sorts the
freshly assigned, strictly increasing positions, so nothing moves. -/
lemma sortedWaiting_after_update (db : DB) (s : String)
    (hdb : (db.map (·.id)).Nodup) :
    sortByPos (filterWaiting (updateQueuePositions db s) s) =
      ranked 0 (sortByPos (filterWaiting db s)) := by
  have hws := sortedWaiting_ids_nodup db s hdb
  have hperm : (sortByPos (filterWaiting (updateQueuePositions db s) s)).Perm
      (ranked 0 (sortByPos (filterWaiting db s))) := by
    refine (sortByPos_perm _).trans ?_
    rw [filterWaiting_updateQueuePositions db s s hdb]
    refine (((sortedWaiting_perm db s).symm.map _).trans ?_)
    rw [map_lookupAssignFrom_self _ hws 0]
  have hranked_pos : (ranked 0 (sortByPos (filterWaiting db s))).Pairwise posLt := by
    have h1 : ((ranked 0 (sortByPos (filterWaiting db s))).map
        (·.queuePosition)).Pairwise (· < ·) := by
      rw [ranked_map_pos]
      exact List.pairwise_lt_range' _ _
    have h2 := List.pairwise_map.1 h1
    exact h2
  have hsorted_le := sortByPos_sorted (filterWaiting (updateQueuePositions db s) s)
  have hnodup_pos : ((sortByPos (filterWaiting (updateQueuePositions db s) s)).map
      (·.queuePosition)).Nodup := by
    refine ((hperm.map (·.queuePosition)).nodup_iff).2 ?_
    rw [ranked_map_pos]
    exact (List.pairwise_lt_range' _ _).imp ne_of_lt
  have hsorted_lt : (sortByPos (filterWaiting (updateQueuePositions db s) s)).Pairwise
      posLt := by
    have hne := List.pairwise_map.1 hnodup_pos
    exact (hsorted_le.and hne).imp fun h => lt_of_le_of_ne h.1 h.2
  exact List.eq_of_perm_of_sorted hperm hsorted_lt hranked_pos

/-- Running updateQueuePositions twice with no intervening mutation is the
same as running it once: the second run rewrites every document with the
values it already has. -/
lemma updateQueuePositions_idem (db : DB) (s : String)
    (hdb : (db.map (·.id)).Nodup) :
    updateQueuePositions (updateQueuePositions db s) s = updateQueuePositions db s := by
  have hws := sortedWaiting_ids_nodup db s hdb
  have hdb2 : ((updateQueuePositions db s).map (·.id)).Nodup := by
    rw [updateQueuePositions_map_id db s hdb]; exact hdb
  rw [updateQueuePositions_eq_map (updateQueuePositions db s) s hdb2,
    sortedWaiting_after_update db s hdb]
  rw [updateQueuePositions_eq_map db s hdb, List.map_map]
  refine List.map_congr_left ?_
  intro x hx
  simp only [Function.comp]
  have hws2 : ((ranked 0 (sortByPos (filterWaiting db s))).map (·.id)).Nodup := by
    rw [ranked_map_id]; exact hws
  by_cases hmem : ∃ w ∈ sortByPos (filterWaiting db s), w.id = x.id
  · obtain ⟨w, hw, hid⟩ := hmem
    have hwdb : w ∈ db := mem_of_mem_sortedWaiting hw
    have hwx : w = x := mem_eq_of_key (·.id) db hdb hwdb hx hid
    subst hwx
    obtain ⟨⟨k, hk⟩, hget⟩ := List.mem_iff_get.1 hw
    have h1 : lookupAssignFrom 0 w (sortByPos (filterWaiting db s)) = setPos w (k + 1) := by
      have := lookupAssignFrom_get _ hws 0 k hk
      rw [hget] at this
      rw [this]
      congr 1
      omega
    have hget2 : (ranked 0 (sortByPos (filterWaiting db s))).get
        ⟨k, by rw [ranked_length]; exact hk⟩ = setPos w (k + 1) := by
      rw [ranked_get _ 0 k hk, hget]
      congr 1
      omega
    have h2 : lookupAssignFrom 0 (setPos w (k + 1))
        (ranked 0 (sortByPos (filterWaiting db s))) = setPos w (k + 1) := by
      have := lookupAssignFrom_get _ hws2 0 k (by rw [ranked_length]; exact hk)
      rw [hget2] at this
      simp only [Nat.zero_add] at this
      rw [this, setPos_setPos]
    rw [h1, h2]
  · push_neg at hmem
    have h1 : lookupAssignFrom 0 x (sortByPos (filterWaiting db s)) = x :=
      lookupAssignFrom_of_not_mem x _ 0 hmem
    have h2 : lookupAssignFrom 0 x (ranked 0 (sortByPos (filterWaiting db s))) = x := by
      refine lookupAssignFrom_of_not_mem x _ 0 ?_
      intro w' hw'
      have : w'.id ∈ (ranked 0 (sortByPos (filterWaiting db s))).map (·.id) :=
        List.mem_map_of_mem (·.id) hw'
      rw [ranked_map_id] at this
      obtain ⟨w, hw, hid⟩ := List.mem_map.1 this
      rw [← hid]
      exact hmem w hw
    rw [h1, h2]

lemma maxTokenForShop_cons (a : Customer) (rest : DB) (s : String) :
    maxTokenForShop (a :: rest) s =
      if a.shopId = s then max (a.tokenNumber.getD 0) (maxTokenForShop rest s)
      else maxTokenForShop rest s := rfl

lemma token_le_max (s : String) (t : Nat) :
    ∀ db : DB, ∀ c ∈ db, c.shopId = s → c.tokenNumber = some t →
      t ≤ maxTokenForShop db s := by
  intro db
  induction db with
  | nil => intro c hc; simp at hc
  | cons a rest ih =>
      intro c hc hshop htok
      rw [maxTokenForShop_cons]
      rcases List.mem_cons.1 hc with rfl | hc
      · rw [if_pos hshop, htok]
        exact le_max_left _ _
      · by_cases ha : a.shopId = s
        · rw [if_pos ha]
          exact (ih c hc hshop htok).trans (le_max_right _ _)
        · rw [if_neg ha]
          exact ih c hc hshop htok

/-- A field untouched by the rewrite of the found document is untouched in
the whole mapped-field view of the collection. -/
lemma updateFirstBy_map_field {β : Type} (fld : Customer → β)
    (p : Customer → Bool) (f : Customer → Customer) (db : DB) (c : Customer)
    (hfind : db.find? p = some c) (hpres : fld (f c) = fld c) :
    (updateFirstBy p f db).map fld = db.map fld := by
  obtain ⟨l1, l2, hsplit, _, hupd⟩ := find?_decomp p db c hfind
  rw [hupd f, hsplit]
  simp [hpres]

/-!
Claim theorems.
-/

/-- Claim C1, counterexample: ticket numbers are reused after a Cancel.
Customer e1 joins shop "s" and receives ticket 1; e1 then cancels, which
clears the stored ticket (`tokenNumber = null`); when customer e2 now
joins the same shop, getNextTokenNumber finds no stored ticket and assigns
ticket 1 a second time - refuting "never repeat a previously assigned
number, even after entries are cancelled". -/
theorem joinQueue_reuses_token_after_cancel :
    (joinQueue [] "e1" "haircut" "s").2 = .ok ⟨1, 1, 0, 1⟩
    ∧ (joinQueue cancelled1 "e2" "haircut" "s").2 = .ok ⟨1, 1, 0, 2⟩ := by
  decide

/-- Claim C1, amended: Join assigns ticket number
max(ticket numbers currently stored for the shop) + 1 (so 1 when none is
stored), and this never collides with a ticket currently stored for the
shop; previously assigned numbers can recur once their document's ticket
has been cleared by a Cancel or overwritten by a rejoin. -/
theorem joinQueue_assigns_max_plus_one (db : DB) (email serviceType shopId : String)
    (hst : serviceType ≠ "") :
    ∃ d : JoinData, (joinQueue db email serviceType shopId).2 = .ok d
      ∧ d.tokenNumber = maxTokenForShop db shopId + 1
      ∧ ∀ c ∈ db, c.shopId = shopId → ∀ t, c.tokenNumber = some t →
          t < d.tokenNumber := by
  unfold joinQueue
  rw [if_neg hst]
  cases hfind : db.find? (fun c => c.email == email) with
  | some c =>
      refine ⟨_, rfl, rfl, ?_⟩
      intro c hc hshop t htok
      exact Nat.lt_succ_of_le (token_le_max shopId t db c hc hshop htok)
  | none =>
      refine ⟨_, rfl, rfl, ?_⟩
      intro c hc hshop t htok
      exact Nat.lt_succ_of_le (token_le_max shopId t db c hc hshop htok)

/-- Witness for the amended C1 theorem at a concrete input. -/
theorem joinQueue_assigns_max_plus_one_witness :
    ("haircut" : String) ≠ ""
    ∧ ∃ d : JoinData, (joinQueue Discovery.queue3 "z" "haircut" "s").2 = .ok d
      ∧ d.tokenNumber = maxTokenForShop Discovery.queue3 "s" + 1
      ∧ ∀ c ∈ Discovery.queue3, c.shopId = "s" → ∀ t, c.tokenNumber = some t →
          t < d.tokenNumber :=
  ⟨by decide, joinQueue_assigns_max_plus_one Discovery.queue3 "z" "haircut" "s" (by decide)⟩

/-- Claim C3, counterexample: Complete succeeds on a waiting entry.  After
e1 joins shop "s" their document is waiting; completeService nevertheless
returns success and rewrites the status to completed - a direct
waiting-to-completed transition, refuting "Complete fails with an
invalid-state error and leaves the entry unchanged". -/
theorem completeService_completes_waiting_entry :
    findDoc joined1 1 = some ⟨1, "e1", "haircut", "s", some 1, 1, 0, .waiting⟩
    ∧ (completeService joined1 1).2
        = .ok ⟨1, "e1", "haircut", "s", some 1, 1, 0, .completed⟩
    ∧ (completeService joined1 1).1
        = [⟨1, "e1", "haircut", "s", some 1, 1, 0, .completed⟩] := by
  decide

/-- Claim C3, amended: completeService performs no status check at all:
for every existing entry - waiting, in-service, completed or cancelled
alike - it succeeds and sets the status to completed; only an unknown
entry id fails (NotFound), leaving the collection unchanged. -/
theorem completeService_ignores_status (db : DB) (entryId : Nat) :
    (∀ c, findDoc db entryId = some c →
        (completeService db entryId).2 = .ok { c with status := .completed })
    ∧ (findDoc db entryId = none →
        completeService db entryId = (db, .error .notFound)) := by
  constructor
  · intro c hc
    unfold completeService
    unfold findDoc at hc
    rw [hc]
  · intro hc
    unfold completeService
    unfold findDoc at hc
    rw [hc]

/-- Witness for the amended C3 theorem: a cancelled entry (status neither
waiting nor in-service) is happily completed. -/
theorem completeService_ignores_status_witness :
    findDoc cancelled1 1
      = some ⟨1, "e1", "haircut", "main-shop", none, 0, 0, .cancelled⟩
    ∧ (completeService cancelled1 1).2
        = .ok ⟨1, "e1", "haircut", "main-shop", none, 0, 0, .completed⟩ :=
  ⟨by decide, (completeService_ignores_status cancelled1 1).1
    ⟨1, "e1", "haircut", "main-shop", none, 0, 0, .cancelled⟩ (by decide)⟩

/-- Claim C4, counterexample: e1 joined shop "s" and is in service; when
e2 joins, the controller counts waiting and in-service documents, so the
returned position is 2, although e2 is the only currently-waiting entry -
refuting "position equals the number of currently-waiting entries counting
the new one". -/
theorem joinQueue_position_includes_inService :
    (joinQueue served1 "e2" "haircut" "s").2 = .ok ⟨2, 2, 0, 2⟩
    ∧ (filterWaiting (joinQueue served1 "e2" "haircut" "s").1 "s").length = 1
    ∧ (2 : Nat) ≠ 1 := by
  decide

/-- Claim C4, amended: the position returned by Join is one plus the count
of entries that are waiting or in-service for the shop at the time of the
join (the join's own document, overwritten afterwards, included in that
count when the customer already had one). -/
theorem joinQueue_position_eq_occupancy (db : DB) (email serviceType shopId : String)
    (hst : serviceType ≠ "") :
    ∃ d : JoinData, (joinQueue db email serviceType shopId).2 = .ok d
      ∧ d.queuePosition = countActive db shopId + 1 := by
  unfold joinQueue
  rw [if_neg hst]
  cases hfind : db.find? (fun c => c.email == email) with
  | some c => exact ⟨_, rfl, rfl⟩
  | none => exact ⟨_, rfl, rfl⟩

/-- Witness for the amended C4 theorem at a concrete input. -/
theorem joinQueue_position_eq_occupancy_witness :
    ("haircut" : String) ≠ ""
    ∧ ∃ d : JoinData, (joinQueue served1 "e2" "haircut" "s").2 = .ok d
      ∧ d.queuePosition = countActive served1 "s" + 1 :=
  ⟨by decide, joinQueue_position_eq_occupancy served1 "e2" "haircut" "s" (by decide)⟩

/-- Claim C2, counterexample: the recompute orders by previously stored
queuePosition, not by ticket number, and reachable states separate the
two.  In crossCancelled, customers e1..e4 joined shop "S" (tickets 1..4),
e1..e3 rejoined shop "T" (the upsert silently moved their documents out of
"S" with no recompute), e5 and e6 then joined "S" - e5's stored position
(2) undercounts because of the moved-out documents - and e6's Cancel
triggered the recompute.  The resulting waiting line of "S" is ticket 4 at
position 2 and ticket 5 at position 1: positions are contiguous 1..2 but
not assigned in ascending ticket order. -/
theorem recompute_not_ticket_ordered :
    (filterWaiting crossCancelled "S").map (fun c => (c.tokenNumber, c.queuePosition))
      = [(some 4, 2), (some 5, 1)]
    ∧ ¬ (∀ a ∈ filterWaiting crossCancelled "S",
          ∀ b ∈ filterWaiting crossCancelled "S",
          a.tokenNumber.getD 0 ≤ b.tokenNumber.getD 0 →
            a.queuePosition ≤ b.queuePosition) := by
  decide

/-- Claim C2, amended: after any Complete or Cancel, the recompute leaves
the shop's currently-waiting entries with positions forming exactly the
contiguous sequence 1..M, assigned in ascending order of previously stored
queuePosition (the controller sorts by queuePosition, not by ticket
number; the k-th document of that sorted fetch receives position k+1). -/
theorem recompute_contiguous_by_stored_position (db : DB) (s : String)
    (hdb : (db.map (·.id)).Nodup) :
    ((filterWaiting (updateQueuePositions db s) s).map (·.queuePosition)).Perm
      (List.range' 1 (sortByPos (filterWaiting db s)).length)
    ∧ ∀ k (h : k < (sortByPos (filterWaiting db s)).length),
        findDoc (updateQueuePositions db s)
            ((sortByPos (filterWaiting db s)).get ⟨k, h⟩).id
          = some (setPos ((sortByPos (filterWaiting db s)).get ⟨k, h⟩) (k + 1)) := by
  have hws := sortedWaiting_ids_nodup db s hdb
  constructor
  · rw [filterWaiting_updateQueuePositions db s s hdb, List.map_map]
    have hp : (filterWaiting db s).Perm (sortByPos (filterWaiting db s)) :=
      (sortedWaiting_perm db s).symm
    refine (hp.map _).trans ?_
    have hmaps : (sortByPos (filterWaiting db s)).map
        ((fun c => c.queuePosition) ∘
          (fun x => lookupAssignFrom 0 x (sortByPos (filterWaiting db s))))
        = List.range' 1 (sortByPos (filterWaiting db s)).length := by
      rw [← List.map_map, map_lookupAssignFrom_self _ hws 0, ranked_map_pos]
    rw [hmaps]
  · intro k h
    have hmem : (sortByPos (filterWaiting db s)).get ⟨k, h⟩ ∈ db :=
      mem_of_mem_sortedWaiting (List.get_mem _ _ _)
    rw [updateQueuePositions_eq_map db s hdb,
      findDoc_map _ db (fun x hx => lookupAssignFrom_mem_id db s hdb x hx) _,
      findDoc_of_mem db _ hmem hdb]
    have hg := lookupAssignFrom_get _ hws 0 k h
    simp only [Option.map_some', hg, Nat.zero_add]

/-- Witness for the amended C2 theorem at a concrete collection. -/
theorem recompute_contiguous_by_stored_position_witness :
    ((Discovery.queue3.map (·.id)).Nodup)
    ∧ (((filterWaiting (updateQueuePositions Discovery.queue3 "s") "s").map
          (·.queuePosition)).Perm
        (List.range' 1 (sortByPos (filterWaiting Discovery.queue3 "s")).length)
      ∧ ∀ k (h : k < (sortByPos (filterWaiting Discovery.queue3 "s")).length),
          findDoc (updateQueuePositions Discovery.queue3 "s")
              ((sortByPos (filterWaiting Discovery.queue3 "s")).get ⟨k, h⟩).id
            = some (setPos ((sortByPos (filterWaiting Discovery.queue3 "s")).get
                ⟨k, h⟩) (k + 1))) :=
  ⟨by decide, recompute_contiguous_by_stored_position Discovery.queue3 "s" (by decide)⟩

/-- Claim C8: running the recompute twice in a row on the same shop with no
intervening mutation returns the identical collection - every waiting
entry keeps the same position and the same estimated wait, and the second
run changes nothing at all. -/
theorem recompute_twice_eq_once (db : DB) (s : String)
    (hdb : (db.map (·.id)).Nodup) :
    updateQueuePositions (updateQueuePositions db s) s = updateQueuePositions db s :=
  updateQueuePositions_idem db s hdb

/-- Witness for the C8 theorem at a concrete collection. -/
theorem recompute_twice_eq_once_witness :
    ((Discovery.queue3.map (·.id)).Nodup)
    ∧ updateQueuePositions (updateQueuePositions Discovery.queue3 "s") "s"
        = updateQueuePositions Discovery.queue3 "s" :=
  ⟨by decide, recompute_twice_eq_once Discovery.queue3 "s" (by decide)⟩

lemma emails_nodup_join (db : DB) (email serviceType shopId : String)
    (hemail : (db.map (·.email)).Nodup) :
    ((joinQueue db email serviceType shopId).1.map (·.email)).Nodup := by
  unfold joinQueue
  by_cases hst : serviceType = ""
  · rw [if_pos hst]
    exact hemail
  · rw [if_neg hst]
    cases hfind : db.find? (fun c => c.email == email) with
    | some c =>
        rw [updateFirstBy_map_field (·.email) _ _ db c hfind rfl]
        exact hemail
    | none =>
        rw [List.map_append]
        rw [List.nodup_append]
        refine ⟨hemail, by simp, ?_⟩
        intro e he hmem
        obtain ⟨x, hx, hxe⟩ := List.mem_map.1 he
        have hnot := List.find?_eq_none.1 hfind x hx
        rcases List.mem_map.1 hmem with ⟨y, hy, hye⟩
        have hy' : y = (⟨freshId db, email, serviceType, shopId,
            some (getNextTokenNumber db shopId), countActive db shopId + 1, 0,
            .waiting⟩ : Customer) := by simpa using hy
        apply hnot
        subst hy'
        simp only [beq_iff_eq]
        rw [hxe, ← hye]

lemma emails_nodup_cancel (db : DB) (entryId : Nat) (requester : String)
    (hemail : (db.map (·.email)).Nodup) (hid : (db.map (·.id)).Nodup) :
    ((cancelQueue db entryId requester).1.map (·.email)).Nodup := by
  cases hfind : db.find? (fun c => c.id == entryId) with
  | none =>
      simp only [cancelQueue, hfind]
      exact hemail
  | some c =>
      simp only [cancelQueue, hfind]
      by_cases he : c.email ≠ requester
      · rw [if_pos he]
        exact hemail
      · rw [if_neg he]
        by_cases hstat : c.status ≠ .waiting
        · rw [if_pos hstat]
          exact hemail
        · rw [if_neg hstat]
          have hids1 : ((updateFirstBy (fun x => x.id == entryId)
              (fun _ => { c with
                  status := .cancelled
                  tokenNumber := none
                  queuePosition := 0
                  shopId := "main-shop" }) db).map (·.id)).Nodup := by
            rw [updateFirstBy_map_field (·.id) _ _ db c hfind rfl]
            exact hid
          rw [updateQueuePositions_map_email _ _ hids1,
            updateFirstBy_map_field (·.email) _ _ db c hfind rfl]
          exact hemail

lemma emails_nodup_serve (db : DB) (entryId : Nat)
    (hemail : (db.map (·.email)).Nodup) :
    ((serveCustomer db entryId).1.map (·.email)).Nodup := by
  cases hfind : db.find? (fun c => c.id == entryId) with
  | none =>
      simp only [serveCustomer, hfind]
      exact hemail
  | some c =>
      simp only [serveCustomer, hfind]
      by_cases hstat : c.status ≠ .waiting
      · rw [if_pos hstat]
        exact hemail
      · rw [if_neg hstat]
        rw [updateFirstBy_map_field (·.email) _ _ db c hfind rfl]
        exact hemail

lemma emails_nodup_complete (db : DB) (entryId : Nat)
    (hemail : (db.map (·.email)).Nodup) (hid : (db.map (·.id)).Nodup) :
    ((completeService db entryId).1.map (·.email)).Nodup := by
  cases hfind : db.find? (fun c => c.id == entryId) with
  | none =>
      simp only [completeService, hfind]
      exact hemail
  | some c =>
      simp only [completeService, hfind]
      have hids1 : ((updateFirstBy (fun x => x.id == entryId)
          (fun _ => { c with status := Status.completed }) db).map (·.id)).Nodup := by
        rw [updateFirstBy_map_field (·.id) _ _ db c hfind rfl]
        exact hid
      rw [updateQueuePositions_map_email _ _ hids1,
        updateFirstBy_map_field (·.email) _ _ db c hfind rfl]
      exact hemail

/-- Claim C10: with the customer's unique email as the document key, every
operation preserves "at most one queue document per customer", and a Join
by a customer who already has a document - of any status - overwrites that
single document in place (same Mongo id, collection length unchanged, data
replaced, status reset to waiting) instead of inserting a second entry or
raising a duplicate-entry error. -/
theorem join_single_document_per_email (db : DB)
    (email serviceType shopId requester : String) (entryId : Nat)
    (hemail : (db.map (·.email)).Nodup) (hid : (db.map (·.id)).Nodup) :
    (((joinQueue db email serviceType shopId).1.map (·.email)).Nodup
      ∧ ((cancelQueue db entryId requester).1.map (·.email)).Nodup
      ∧ ((serveCustomer db entryId).1.map (·.email)).Nodup
      ∧ ((completeService db entryId).1.map (·.email)).Nodup)
    ∧ ∀ c ∈ db, c.email = email → serviceType ≠ "" →
        (joinQueue db email serviceType shopId).1.length = db.length
        ∧ (joinQueue db email serviceType shopId).2
            = .ok ⟨getNextTokenNumber db shopId, countActive db shopId + 1,
                   c.estimatedWaitTime, c.id⟩
        ∧ findDoc (joinQueue db email serviceType shopId).1 c.id
            = some { c with
                serviceType := serviceType
                shopId := shopId
                tokenNumber := some (getNextTokenNumber db shopId)
                queuePosition := countActive db shopId + 1
                status := .waiting } := by
  refine ⟨⟨emails_nodup_join db email serviceType shopId hemail,
    emails_nodup_cancel db entryId requester hemail hid,
    emails_nodup_serve db entryId hemail,
    emails_nodup_complete db entryId hemail hid⟩, ?_⟩
  intro c hc hce hst
  have hfind : db.find? (fun y => y.email == email) = some c := by
    have h0 := find?_key_of_mem (·.email) db c hc hemail
    simp only [hce] at h0
    exact h0
  simp only [joinQueue, if_neg hst, hfind]
  refine ⟨updateFirstBy_length _ _ db, by trivial, ?_⟩
  obtain ⟨l1, l2, hsplit, _, hupd⟩ := find?_decomp _ db c hfind
  rw [hupd]
  unfold findDoc
  rw [List.find?_append]
  have h1 : l1.find? (fun y => y.id == c.id) = none := by
    refine List.find?_eq_none.2 ?_
    intro y hy
    simp only [beq_iff_eq]
    intro hyc
    have hdb' : (db.map (·.id)).Nodup := hid
    rw [hsplit, List.map_append, List.map_cons] at hdb'
    have hmid := (List.nodup_middle.1 hdb')
    rw [List.nodup_cons] at hmid
    exact hmid.1 (List.mem_append_left _ (hyc ▸ List.mem_map_of_mem (·.id) hy))
  rw [h1]
  have h2 : (List.find? (fun y => y.id == c.id)
      ({ c with
          serviceType := serviceType
          shopId := shopId
          tokenNumber := some (getNextTokenNumber db shopId)
          queuePosition := countActive db shopId + 1
          status := Status.waiting } :: l2)) =
      some { c with
          serviceType := serviceType
          shopId := shopId
          tokenNumber := some (getNextTokenNumber db shopId)
          queuePosition := countActive db shopId + 1
          status := Status.waiting } :=
    List.find?_cons_of_pos l2 (by simp)
  rw [h2]
  rfl

/-- Witness for the C10 theorem at a concrete collection: customer "b" of
queue3 rejoins with a different service and shop; their document is
overwritten in place. -/
theorem join_single_document_per_email_witness :
    ((Discovery.queue3.map (·.email)).Nodup)
    ∧ ((Discovery.queue3.map (·.id)).Nodup)
    ∧ ((((joinQueue Discovery.queue3 "b" "shave" "s2").1.map (·.email)).Nodup
        ∧ ((cancelQueue Discovery.queue3 2 "x").1.map (·.email)).Nodup
        ∧ ((serveCustomer Discovery.queue3 2).1.map (·.email)).Nodup
        ∧ ((completeService Discovery.queue3 2).1.map (·.email)).Nodup)
      ∧ ∀ c ∈ Discovery.queue3, c.email = "b" → ("shave" : String) ≠ "" →
          (joinQueue Discovery.queue3 "b" "shave" "s2").1.length
              = Discovery.queue3.length
          ∧ (joinQueue Discovery.queue3 "b" "shave" "s2").2
              = .ok ⟨getNextTokenNumber Discovery.queue3 "s2",
                     countActive Discovery.queue3 "s2" + 1,
                     c.estimatedWaitTime, c.id⟩
          ∧ findDoc (joinQueue Discovery.queue3 "b" "shave" "s2").1 c.id
              = some { c with
                  serviceType := "shave"
                  shopId := "s2"
                  tokenNumber := some (getNextTokenNumber Discovery.queue3 "s2")
                  queuePosition := countActive Discovery.queue3 "s2" + 1
                  status := .waiting }) :=
  ⟨by decide, by decide,
   join_single_document_per_email Discovery.queue3 "b" "shave" "s2" "x" 2
     (by decide) (by decide)⟩

/-- Claim C9: Cancel by a customer who does not own the entry fails with
the Forbidden error (HTTP 403) and returns the collection unchanged - the
entry keeps its status, ticket number and position. -/
theorem cancelQueue_forbidden_not_owner (db : DB) (entryId : Nat)
    (requester : String) (c : Customer) (hfind : findDoc db entryId = some c)
    (hne : c.email ≠ requester) :
    cancelQueue db entryId requester = (db, .error .forbidden) := by
  unfold cancelQueue
  unfold findDoc at hfind
  rw [hfind]
  simp [hne]

/-- Witness for the C9 theorem at a concrete input. -/
theorem cancelQueue_forbidden_not_owner_witness :
    findDoc joined1 1 = some ⟨1, "e1", "haircut", "s", some 1, 1, 0, .waiting⟩
    ∧ cancelQueue joined1 1 "intruder" = (joined1, .error .forbidden) :=
  ⟨by decide,
   cancelQueue_forbidden_not_owner joined1 1 "intruder"
     ⟨1, "e1", "haircut", "s", some 1, 1, 0, .waiting⟩ (by decide) (by decide)⟩

end BarberQueue

namespace Discovery

lemma insertByDist_perm (e : Enriched) :
    ∀ l : List Enriched, (insertByDist e l).Perm (e :: l) := by
  intro l
  induction l with
  | nil => simp [insertByDist]
  | cons x xs ih =>
      by_cases hle : e.distance ≤ x.distance
      · simp [insertByDist, hle]
      · simp only [insertByDist, if_neg hle]
        exact (ih.cons x).trans (List.Perm.swap e x xs)

lemma sortByDistance_perm : ∀ l : List Enriched, (sortByDistance l).Perm l := by
  intro l
  induction l with
  | nil => simp [sortByDistance]
  | cons e rest ih =>
      exact (insertByDist_perm e (sortByDistance rest)).trans (ih.cons e)

lemma insertByDist_sorted (e : Enriched) :
    ∀ l : List Enriched, l.Pairwise (fun a b => a.distance ≤ b.distance) →
      (insertByDist e l).Pairwise (fun a b => a.distance ≤ b.distance) := by
  intro l
  induction l with
  | nil => intro _; simp [insertByDist]
  | cons x xs ih =>
      intro hs
      rw [List.pairwise_cons] at hs
      by_cases hle : e.distance ≤ x.distance
      · rw [insertByDist, if_pos hle, List.pairwise_cons]
        refine ⟨?_, List.pairwise_cons.2 hs⟩
        intro y hy
        rcases List.mem_cons.1 hy with rfl | hy
        · exact hle
        · exact hle.trans (hs.1 y hy)
      · rw [insertByDist, if_neg hle, List.pairwise_cons]
        refine ⟨?_, ih hs.2⟩
        intro y hy
        have hy' := (insertByDist_perm e xs).mem_iff.1 hy
        rcases List.mem_cons.1 hy' with rfl | hy'
        · exact le_of_not_le hle
        · exact hs.1 y hy'

lemma sortByDistance_sorted :
    ∀ l : List Enriched, (sortByDistance l).Pairwise
      (fun a b => a.distance ≤ b.distance) := by
  intro l
  induction l with
  | nil => simp [sortByDistance]
  | cons e rest ih => exact insertByDist_sorted e _ ih

lemma roundTenth_one : roundTenth 1 = 1 := by
  unfold roundTenth
  have h10 : ((1 : ℚ) * 10) = ((10 : ℤ) : ℚ) := by norm_num
  rw [h10, round_intCast]
  norm_num

lemma enrichBarber_const_distance (cdb : BarberQueue.DB) (lon lat : ℚ)
    (b : Barber) : (enrichBarber havConst cdb lon lat b).distance = 1 := by
  simp [enrichBarber, getDistance, havConst, roundTenth_one]

lemma sortByDistance_pair (a b : Enriched) (h : a.distance ≤ b.distance) :
    sortByDistance [a, b] = [a, b] := by
  simp [sortByDistance, insertByDist, h]

/-- Under the constant Haversine core, a two-candidate query with any
radius succeeds and keeps the candidate order, both enriched distances
being equal. -/
lemma nearby_const_pair (radius : Option Int) (cdb : BarberQueue.DB) :
    getNearbyBarbers havConst 21 72 radius [shopB, shopA] cdb
      = .ok [enrichBarber havConst cdb 72 21 shopB,
             enrichBarber havConst cdb 72 21 shopA] := by
  unfold getNearbyBarbers
  rw [if_neg (by norm_num), if_neg (by norm_num)]
  rw [List.map_cons, List.map_cons, List.map_nil]
  rw [sortByDistance_pair _ _ (le_of_eq (by
    rw [enrichBarber_const_distance, enrichBarber_const_distance]))]

/-- Claim C5, counterexample: the sort key is the already-rounded distance
and equal distances keep the store's candidate order - they are not
reordered by shop identifier.  shopA and shopB sit at identical
coordinates, so their distances are equal under every Haversine core; the
candidates arrive as [shopB, shopA] and the result keeps that order even
though shopA's identifier "a" orders before shopB's "b". -/
theorem nearby_ties_not_ordered_by_id :
    getNearbyBarbers havConst 21 72 (some 2000) [shopB, shopA] []
      = .ok [enrichBarber havConst [] 72 21 shopB, enrichBarber havConst [] 72 21 shopA]
    ∧ (enrichBarber havConst [] 72 21 shopB).distance
        = (enrichBarber havConst [] 72 21 shopA).distance
    ∧ shopA.shopId < shopB.shopId := by
  refine ⟨nearby_const_pair (some 2000) [], ?_, ?_⟩
  · rw [enrichBarber_const_distance, enrichBarber_const_distance]
  · show ("a" : String) < "b"
    exact String.lt_iff_toList_lt.2 (List.Lex.rel (by decide))

/-- Claim C5, amended: getNearbyBarbers returns the enriched candidates
sorted non-decreasing by the stored distance - which is the Haversine
value already rounded to one decimal place by getDistance, serving as both
the display value and the sort key - and the result is a permutation of
the enriched candidate list; ties keep the candidate order of the store
query (stable sort), with no shop-identifier tiebreak. -/
theorem nearby_sorted_by_rounded_distance (hav : ℚ → ℚ → ℚ → ℚ → ℚ)
    (userLat userLon : ℚ) (radius : Option Int) (cands : List Barber)
    (cdb : BarberQueue.DB) (l : List Enriched)
    (h : getNearbyBarbers hav userLat userLon radius cands cdb = .ok l) :
    l.Pairwise (fun a b => a.distance ≤ b.distance)
    ∧ l.Perm (cands.map (enrichBarber hav cdb userLon userLat)) := by
  unfold getNearbyBarbers at h
  by_cases h1 : userLat = 0 ∨ userLon = 0
  · rw [if_pos h1] at h
    exact absurd h (by simp)
  rw [if_neg h1] at h
  by_cases h2 : userLat < -90 ∨ userLat > 90 ∨ userLon < -180 ∨ userLon > 180
  · rw [if_pos h2] at h
    exact absurd h (by simp)
  rw [if_neg h2, Except.ok.injEq] at h
  subst h
  exact ⟨sortByDistance_sorted _, sortByDistance_perm _⟩

/-- Witness for the amended C5 theorem at a concrete query. -/
theorem nearby_sorted_by_rounded_distance_witness :
    getNearbyBarbers havConst 21 72 (some 2000) [shopB, shopA] queue3
      = .ok [enrichBarber havConst queue3 72 21 shopB,
             enrichBarber havConst queue3 72 21 shopA]
    ∧ (List.Pairwise (fun a b => a.distance ≤ b.distance)
        [enrichBarber havConst queue3 72 21 shopB,
         enrichBarber havConst queue3 72 21 shopA]
      ∧ List.Perm
          [enrichBarber havConst queue3 72 21 shopB,
           enrichBarber havConst queue3 72 21 shopA]
          ([shopB, shopA].map (enrichBarber havConst queue3 72 21))) :=
  ⟨nearby_const_pair (some 2000) queue3,
   nearby_sorted_by_rounded_distance havConst 21 72 (some 2000) [shopB, shopA]
     queue3
     [enrichBarber havConst queue3 72 21 shopB,
      enrichBarber havConst queue3 72 21 shopA]
     (nearby_const_pair (some 2000) queue3)⟩

/-- Claim C6, counterexample: the routed handler rejects the in-range
origin (0, 72.8311) with the missing-coordinates message - the
JavaScript truthiness check `!userLat || !userLon` treats latitude 0 as
absent - and it never validates the radius: queries with radius 50001
and with radius -1 both succeed and reach the store, refuting "rejects
every radius outside [0, 50000] meters with InvalidRadius before
performing any store query". -/
theorem nearby_zero_rejected_radius_unchecked :
    getNearbyBarbers havConst 0 (728311/10000 : ℚ) (some 2000) [shopA] queue3
      = .error .missingCoordinates
    ∧ (-90 : ℚ) ≤ 0 ∧ (0 : ℚ) ≤ 90
    ∧ (-180 : ℚ) ≤ 728311/10000 ∧ (728311/10000 : ℚ) ≤ 180
    ∧ getNearbyBarbers havConst 21 72 (some 50001) [shopB, shopA] queue3
        = .ok [enrichBarber havConst queue3 72 21 shopB,
               enrichBarber havConst queue3 72 21 shopA]
    ∧ getNearbyBarbers havConst 21 72 (some (-1)) [shopB, shopA] queue3
        = .ok [enrichBarber havConst queue3 72 21 shopB,
               enrichBarber havConst queue3 72 21 shopA] := by
  refine ⟨?_, by norm_num, by norm_num, by norm_num, by norm_num,
    nearby_const_pair (some 50001) queue3, nearby_const_pair (some (-1)) queue3⟩
  unfold getNearbyBarbers
  rw [if_pos (Or.inl rfl)]

/-- Claim C6, amended: getNearbyBarbers rejects an origin whose latitude
or longitude is 0 (the truthiness presence check) and, for nonzero
origins, accepts exactly the in-range ones - out-of-range origins fail
with InvalidCoordinates.  The radius is never validated: whatever its
value (or absence), an accepted origin reaches the store query and no
InvalidRadius error exists on this endpoint. -/
theorem nearby_validates_origin_only (hav : ℚ → ℚ → ℚ → ℚ → ℚ)
    (userLat userLon : ℚ) (radius : Option Int) (cands : List Barber)
    (cdb : BarberQueue.DB) (h1 : userLat ≠ 0) (h2 : userLon ≠ 0) :
    (¬(userLat < -90 ∨ userLat > 90 ∨ userLon < -180 ∨ userLon > 180) →
        getNearbyBarbers hav userLat userLon radius cands cdb
          = .ok (sortByDistance (cands.map (enrichBarber hav cdb userLon userLat))))
    ∧ ((userLat < -90 ∨ userLat > 90 ∨ userLon < -180 ∨ userLon > 180) →
        getNearbyBarbers hav userLat userLon radius cands cdb
          = .error .invalidCoordinates) := by
  have hz : ¬(userLat = 0 ∨ userLon = 0) := by
    push_neg
    exact ⟨h1, h2⟩
  constructor
  · intro hin
    unfold getNearbyBarbers
    rw [if_neg hz, if_neg hin]
  · intro hout
    unfold getNearbyBarbers
    rw [if_neg hz, if_pos hout]

/-- Witness for the amended C6 theorem at a concrete query (radius
absent, so the store would default to 5000 m). -/
theorem nearby_validates_origin_only_witness :
    (21 : ℚ) ≠ 0 ∧ (72 : ℚ) ≠ 0
    ∧ ((¬((21 : ℚ) < -90 ∨ (21 : ℚ) > 90 ∨ (72 : ℚ) < -180 ∨ (72 : ℚ) > 180) →
          getNearbyBarbers havConst 21 72 none [shopA] queue3
            = .ok (sortByDistance ([shopA].map (enrichBarber havConst queue3 72 21))))
      ∧ (((21 : ℚ) < -90 ∨ (21 : ℚ) > 90 ∨ (72 : ℚ) < -180 ∨ (72 : ℚ) > 180) →
          getNearbyBarbers havConst 21 72 none [shopA] queue3
            = .error .invalidCoordinates)) :=
  ⟨by norm_num, by norm_num,
   nearby_validates_origin_only havConst 21 72 none [shopA] queue3
     (by norm_num) (by norm_num)⟩

/-- Claim C7, counterexample: with queueLength = 3 at a shop whose stored
average service time is 20 minutes, the routed handler hardcodes 15
minutes per customer (estimatedWaitTime = queueLength * 15, line 97 of
src/unnamed/part_008), so the estimated wait is 45 minutes and
waitTimeText is "45 min" - not the claimed "60 min". -/
theorem waitTime_queue3_formats_45min :
    (enrichBarber havConst queue3 72 21 shopAvg20).queueLength = 3
    ∧ shopAvg20.averageWaitTime = 20
    ∧ (enrichBarber havConst queue3 72 21 shopAvg20).estimatedWaitTime = 45
    ∧ (enrichBarber havConst queue3 72 21 shopAvg20).waitTimeText = "45 min"
    ∧ ("45 min" : String) ≠ "60 min" := by
  decide

/-- Claim C7, amended: waitTimeText is "No wait" when the estimated wait
is 0 minutes; the estimated wait is always queueLength * 15 - the shop's
stored average service time is ignored - so for queueLength = 3 (even at
a shop whose stored average is 20 minutes) it is 45 minutes rendered
"45 min"; and when the estimated wait totals 75 minutes (queueLength = 5)
the text is "1 hr 15 min". -/
theorem waitTime_text_formats :
    (enrichBarber havConst [] 72 21 shopAvg20).waitTimeText = "No wait"
    ∧ (enrichBarber havConst queue3 72 21 shopAvg20).estimatedWaitTime = 45
    ∧ (enrichBarber havConst queue3 72 21 shopAvg20).waitTimeText = "45 min"
    ∧ (enrichBarber havConst queue5 72 21 shopAvg15).estimatedWaitTime = 75
    ∧ (enrichBarber havConst queue5 72 21 shopAvg15).waitTimeText = "1 hr 15 min" := by
  decide

end Discovery
